import Mathlib

/-!
# Verification of the Stock Interval Price Calculator

A shallow embedding of `app.py`: symbol validation, the Alpha Vantage response
classification in `fetch_intraday_data`, the aggregation pipeline
`process_data_for_intervals` (UTC → US/Eastern conversion, 10-day window filter,
per-day and per-interval pooled averaging, weekend removal, descending sort),
and the CSV export of `export_to_csv`, together with theorems about them.

Conventions of the embedding:
* instants are seconds since 1970-01-01T00:00Z (`Int`);
* calendar dates are day counts since 1970-01-01 (`Int`);
* prices are exact rationals (`ℚ`); a price field that failed
  `pd.to_numeric(..., errors='coerce')` is `none` (pandas NaN);
* strings are `List Char`.
-/

namespace StockApp

/-- Round a rational to the nearest integer, ties to even (Python `round`). -/
def roundHalfEven (q : ℚ) : ℤ :=
  let f : ℤ := ⌊q⌋
  let r : ℚ := q - (f : ℚ)
  if r < 1/2 then f
  else if (1 : ℚ)/2 < r then f + 1
  else if f % 2 = 0 then f else f + 1

/-- `round(x, 2)` from line 128 of app.py, on exact rationals. -/
def round2 (q : ℚ) : ℚ := (roundHalfEven (q * 100) : ℚ) / 100

/-- Arithmetic mean of a list of rationals (0 on the empty list; always guarded). -/
def qmean (xs : List ℚ) : ℚ := xs.sum / (xs.length : ℚ)

/-! ## Calendar and the US/Eastern zone

`app.py` relies on `pandas`/`pytz` for calendar arithmetic
(`tz_localize('UTC').tz_convert('US/Eastern')`, `.date`, `.weekday()`,
`.strftime`).  The following models the proleptic-Gregorian calendar and the
post-2007 daylight-saving rules of the IANA zone `US/Eastern` that those
libraries implement. -/

/-- Civil date `(year, month, day)` from a count of days since 1970-01-01. -/
def civilFromDays (z0 : Int) : Int × Nat × Nat :=
  let z := z0 + 719468
  let era : Int := z / 146097
  let doe : Nat := (z - era * 146097).toNat
  let yoe : Nat := (doe - doe / 1460 + doe / 36524 - doe / 146096) / 365
  let y : Int := (yoe : Int) + era * 400
  let doy : Nat := doe - (365 * yoe + yoe / 4 - yoe / 100)
  let mp : Nat := (5 * doy + 2) / 153
  let d : Nat := doy - (153 * mp + 2) / 5 + 1
  let m : Nat := if mp < 10 then mp + 3 else mp - 9
  (if m ≤ 2 then y + 1 else y, m, d)

/-- Days since 1970-01-01 of the civil date `(y0, m, d)`. -/
def daysFromCivil (y0 : Int) (m d : Nat) : Int :=
  let y : Int := if m ≤ 2 then y0 - 1 else y0
  let era : Int := y / 400
  let yoe : Nat := (y - era * 400).toNat
  let mp : Nat := if 2 < m then m - 3 else m + 9
  let doy : Nat := (153 * mp + 2) / 5 + d - 1
  let doe : Nat := yoe * 365 + yoe / 4 - yoe / 100 + doy
  era * 146097 + (doe : Int) - 719468

/-- Weekday, Monday = 0 … Sunday = 6 (Python `date.weekday()`);
day 0 (1970-01-01) is a Thursday. -/
def weekday (days : Int) : Nat := ((days + 3) % 7).toNat

/-- `strftime('%A')`: the full weekday name. -/
def weekdayName (w : Nat) : List Char :=
  (["Monday", "Tuesday", "Wednesday", "Thursday", "Friday", "Saturday",
    "Sunday"].getD w "").toList

/-- Day of month of the first Sunday of month `m` of year `y`. -/
def firstSundayDom (y : Int) (m : Nat) : Nat :=
  1 + (6 - weekday (daysFromCivil y m 1))

/-- UTC instant at which US/Eastern daylight saving starts in year `y`:
second Sunday of March, 02:00 EST = 07:00 UTC. -/
def dstStartUtc (y : Int) : Int :=
  daysFromCivil y 3 (firstSundayDom y 3 + 7) * 86400 + 7 * 3600

/-- UTC instant at which US/Eastern daylight saving ends in year `y`:
first Sunday of November, 02:00 EDT = 06:00 UTC. -/
def dstEndUtc (y : Int) : Int :=
  daysFromCivil y 11 (firstSundayDom y 11) * 86400 + 6 * 3600

/-- UTC offset, in seconds, of the US/Eastern zone at UTC instant `t`
(−4 h during daylight saving, −5 h otherwise). -/
def easternOffset (t : Int) : Int :=
  let y := (civilFromDays (t / 86400)).1
  if dstStartUtc y ≤ t ∧ t < dstEndUtc y then -14400 else -18000

/-- Local Eastern seconds-since-epoch of UTC instant `t`
(`tz_localize('UTC').tz_convert('US/Eastern')`). -/
def easternSec (t : Int) : Int := t + easternOffset t

/-- Eastern-zone calendar date (`df.index.date` on the converted index). -/
def easternDate (t : Int) : Int := easternSec t / 86400

/-- Eastern-zone clock time in seconds since local midnight
(what `between_time` compares). -/
def easternClock (t : Int) : Int := easternSec t % 86400

/-! ## Data model -/

/-- One provider bar after parsing (lines 78-88 of app.py): `ts` is the bar's
timestamp read as a UTC instant (`pd.to_datetime` + `tz_localize('UTC')`);
each price field is the result of `pd.to_numeric(..., errors='coerce')`,
`none` modelling a value that failed to parse (NaN). -/
structure RawBar where
  ts : Int
  Open : Option ℚ
  High : Option ℚ
  Low : Option ℚ
  Close : Option ℚ
  Volume : Option Int
deriving DecidableEq, Repr

/-- One interval cell of a `DaySummary` row: a rounded price, NaN (bars
matched but every price value of every bar failed to parse), or the literal
"No Data" marker. -/
inductive CellValue
  | price (v : ℚ)
  | nan
  | noData
deriving DecidableEq, Repr

/-- One output row (lines 119-132 of app.py). -/
structure DaySummary where
  Date : Int
  Day : List Char
  morning : CellValue
  midMorning : CellValue
  marketClose : CellValue
deriving DecidableEq, Repr

/-- The three fixed intervals of lines 101-105: name, start and end clock time
in seconds since local midnight (9:00 = 32400, 9:35 = 34500, 11:00 = 39600,
11:30 = 41400, 15:30 = 55800, 16:00 = 57600). -/
def intervals : List (List Char × Int × Int) :=
  [(("Morning (9:00-9:35 AM)").toList, 32400, 34500),
   (("Mid-Morning (11:00-11:30 AM)").toList, 39600, 41400),
   (("Market Close (3:30-4:00 PM)").toList, 55800, 57600)]

/-! ## Aggregator -/

/-- Mean of one price column, skipping missing values (pandas `Series.mean`
with its default `skipna`); `none` when every value is missing. -/
def colMean (xs : List (Option ℚ)) : Option ℚ :=
  let p := xs.filterMap id
  if p = [] then none else some (p.sum / (p.length : ℚ))

/-- `interval_data[price_columns].mean().mean()` (line 127): the mean of the
four per-column means, a column whose mean is NaN being skipped by the outer
mean. -/
def meanOfMeans (rows : List RawBar) : Option ℚ :=
  let ms := [colMean (rows.map (·.Open)), colMean (rows.map (·.High)),
             colMean (rows.map (·.Low)), colMean (rows.map (·.Close))].filterMap id
  if ms = [] then none else some (ms.sum / (ms.length : ℚ))

/-- `day_data.between_time(start_time, end_time)` (line 123): bars whose local
Eastern clock time lies in the window, both endpoints inclusive. -/
def matchingRows (dayRows : List RawBar) (startSec endSec : Int) : List RawBar :=
  dayRows.filter
    (fun b => decide (startSec ≤ easternClock b.ts) && decide (easternClock b.ts ≤ endSec))

/-- Lines 123-130 of app.py: the cell computed for one interval of one day. -/
def intervalCell (dayRows : List RawBar) (startSec endSec : Int) : CellValue :=
  let m := matchingRows dayRows startSec endSec
  if m = [] then .noData
  else
    match meanOfMeans m with
    | none => .nan
    | some q => .price (round2 q)

/-- The bars of one Eastern calendar date (one `groupby('Date')` group). -/
def rowsOfDate (rows : List RawBar) (d : Int) : List RawBar :=
  rows.filter (fun b => decide (easternDate b.ts = d))

/-- Lines 119-132: the `DaySummary` row of one surviving day, the loop over
`intervals` unrolled over the three fixed entries. -/
def daySummary (rows : List RawBar) (d : Int) : DaySummary :=
  { Date := d
    Day := weekdayName (weekday d)
    morning := intervalCell (rowsOfDate rows d) 32400 34500
    midMorning := intervalCell (rowsOfDate rows d) 39600 41400
    marketClose := intervalCell (rowsOfDate rows d) 55800 57600 }

/-- Lines 90-94: keep bars whose timestamp is within the trailing 10-day
window ending at `now`, both endpoints inclusive (`timedelta(days=10)` is
exactly 864000 seconds). -/
def windowFilter (data : List RawBar) (now : Int) : List RawBar :=
  data.filter (fun b => decide (now - 10 * 86400 ≤ b.ts) && decide (b.ts ≤ now))

/-- Lines 110-117: the distinct Eastern dates of the filtered bars in
ascending order (pandas `groupby` iterates keys sorted), weekends dropped. -/
def tradingDates (rows : List RawBar) : List Int :=
  (List.insertionSort (· ≤ ·) ((rows.map (fun b => easternDate b.ts)).dedup)).filter
    (fun d => decide (weekday d < 5))

/-- Outcome of `process_data_for_intervals`: `noInput` models the `None`
returned for falsy input (line 74-75), `emptyWarn` the `st.warning` + `None`
of lines 96-98, `table` a produced result frame. -/
inductive AggResult
  | noInput
  | emptyWarn (warning : List Char)
  | table (rows : List DaySummary)
deriving DecidableEq, Repr

/-- Lines 72-141 of app.py.  `now` is the wall clock read at line 91, as a UTC
instant. -/
def process_data_for_intervals (data : List RawBar) (now : Int) : AggResult :=
  if data = [] then .noInput
  else
    let filtered := windowFilter data now
    if filtered = [] then .emptyWarn (("No data available for the past 7 days.").toList)
    else
      .table (List.insertionSort (fun a b => b.Date ≤ a.Date)
        ((tradingDates filtered).map (daySummary filtered)))

/-! ## Fetcher and main-flow models -/

/-- The JSON envelope of one successful-HTTP provider response, abstracted to
the presence of the keys `fetch_intraday_data` inspects; `timeSeries` is the
value under "Time Series (5min)" (already in parsed-bar form). -/
structure ApiResponse where
  errorMessage : Option (List Char)
  note : Option (List Char)
  information : Option (List Char)
  timeSeries : Option (List RawBar)
deriving DecidableEq, Repr

/-- Result of `fetch_intraday_data`: the raw series on success, otherwise the
classified failure with the message shown by `st.error`. -/
inductive FetchResult
  | success (series : List RawBar)
  | apiError (msg : List Char)
  | rateLimited (msg : List Char)
  | noData (msg : List Char)
deriving DecidableEq, Repr

/-- Lines 44-63 of app.py: classification of a successful HTTP response. -/
def fetch_intraday_data (symbol : List Char) (r : ApiResponse) : FetchResult :=
  match r.errorMessage with
  | some m => .apiError m
  | none =>
    match r.note with
    | some _ =>
      .rateLimited (("API call frequency limit reached. Please try again later.").toList)
    | none =>
      match r.information with
      | some _ =>
        .rateLimited (("API rate limit exceeded. Please wait before making another request.").toList)
      | none =>
        match r.timeSeries with
        | none => .noData (("No intraday data found for symbol: ").toList ++ symbol
            ++ (". Please check if the symbol is valid.").toList)
        | some ts => .success ts

/-- Lines 22-27 of app.py (`symbol.isalpha() and 1 <= len(symbol) <= 5`,
with the explicit empty-string guard). -/
def validate_symbol (s : List Char) : Bool :=
  if s = [] then false
  else s.all Char.isAlpha && (decide (1 ≤ s.length) && decide (s.length ≤ 5))

/-- What `main` does first with the entered symbol. -/
inductive MainStep
  | validationError
  | fetchIssued (symbol : List Char)
deriving DecidableEq, Repr

/-- Lines 174-182: the validation gate in `main`; only a valid symbol reaches
the network call. -/
def mainDispatch (symbol : List Char) : MainStep :=
  if validate_symbol symbol then .fetchIssued symbol else .validationError

/-- `.upper()` applied to the text input at line 162. -/
def upperStr (s : List Char) : List Char := s.map Char.toUpper

/-- Lines 184-260 of `main` after the fetch: a table is displayed only when
the fetch succeeded with a truthy (nonempty) series and processing produced a
nonempty frame. -/
def runCalculation (symbol : List Char) (r : ApiResponse) (now : Int) :
    Option (List DaySummary) :=
  match fetch_intraday_data symbol r with
  | .success series =>
    if series = [] then none
    else
      match process_data_for_intervals series now with
      | .table rows => if rows = [] then none else some rows
      | _ => none
  | _ => none

/-! ## Flattened values and per-field means (for the averaging claims) -/

/-- All open, high, low, close values of the given bars, flattened into one
list; a value that failed to parse contributes nothing. -/
def flattenedOHLC (rows : List RawBar) : List ℚ :=
  (rows.map (fun b => [b.Open, b.High, b.Low, b.Close].filterMap id)).flatten

/-- The mean of one price field over that field's non-missing values. -/
def fieldMean (f : RawBar → Option ℚ) (rows : List RawBar) : ℚ :=
  qmean (rows.filterMap f)

/-- Every price field of every bar parsed successfully. -/
def allPresent (rows : List RawBar) : Prop :=
  ∀ b ∈ rows, b.Open.isSome ∧ b.High.isSome ∧ b.Low.isSome ∧ b.Close.isSome

instance (rows : List RawBar) : Decidable (allPresent rows) := by
  unfold allPresent; infer_instance

/-! ## CSV export (`export_to_csv`, lines 143-147) and a parser for it -/

/-- The character of the decimal digit `d`. -/
def digitCh (d : Nat) : Char := Char.ofNat (48 + d)

/-- Big-endian decimal digits of `n`, computed with explicit fuel. -/
def natToCharsAux : Nat → Nat → List Char
  | 0, _ => []
  | fuel + 1, n =>
    if n = 0 then [] else natToCharsAux fuel (n / 10) ++ [digitCh (n % 10)]

/-- Decimal rendering of a natural number. -/
def natToChars (n : Nat) : List Char := if n = 0 then ['0'] else natToCharsAux n n

def isDigitCh (c : Char) : Bool := decide (48 ≤ c.toNat) && decide (c.toNat ≤ 57)

def charDigit (c : Char) : Nat := c.toNat - 48

/-- Read a nonempty all-digit string as a natural number. -/
def parseNat (cs : List Char) : Option Nat :=
  if cs ≠ [] ∧ cs.all isDigitCh then
    some (cs.foldl (fun a c => a * 10 + charDigit c) 0)
  else none

/-- Zero-pad on the left to width `k` (as `strftime`'s `%Y`, `%m`, `%d` do). -/
def padZeros (k : Nat) (cs : List Char) : List Char :=
  List.replicate (k - cs.length) '0' ++ cs

/-- `strftime('%Y-%m-%d')` of a day count (line 119 / line 139 of app.py). -/
def dateToChars (d : Int) : List Char :=
  padZeros 4 (natToChars (civilFromDays d).1.toNat) ++
    '-' :: (padZeros 2 (natToChars (civilFromDays d).2.1) ++
      '-' :: padZeros 2 (natToChars (civilFromDays d).2.2))

/-- Join chunks with a separator character (no escaping; no produced field
contains the separator). -/
def joinSep (sep : Char) : List (List Char) → List Char
  | [] => []
  | [c] => c
  | c :: c' :: cs => c ++ sep :: joinSep sep (c' :: cs)

/-- Split at every occurrence of the separator (inverse of `joinSep`). -/
def splitSep (sep : Char) : List Char → List (List Char)
  | [] => [[]]
  | c :: cs =>
    match splitSep sep cs with
    | [] => [[c]]
    | p :: ps => if c = sep then [] :: p :: ps else (c :: p) :: ps

/-- Read a `YYYY-MM-DD` date back as `(year, month, day)`. -/
def parseDate (cs : List Char) : Option (Int × Nat × Nat) :=
  match splitSep '-' cs with
  | [ys, ms, ds] =>
    match parseNat ys, parseNat ms, parseNat ds with
    | some y, some m, some d => some ((y : Int), m, d)
    | _, _, _ => none
  | _ => none

/-- Decimal rendering of the non-negative scaled value `n` (the cell value
times 100), as `repr` of the Python float prints it: `"x.0"` for whole
values, one fractional digit when the second is zero, otherwise two. -/
def scaledNatToChars (n : Nat) : List Char :=
  let ip := n / 100
  let fp := n % 100
  natToChars ip ++ '.' ::
    (if fp = 0 then ['0']
     else if fp % 10 = 0 then [digitCh (fp / 10)]
     else [digitCh (fp / 10), digitCh (fp % 10)])

/-- Decimal rendering of the scaled integer `n` (cell value times 100). -/
def scaledToChars (n : Int) : List Char :=
  if n < 0 then '-' :: scaledNatToChars n.natAbs else scaledNatToChars n.toNat

/-- The text of one interval cell in the CSV: the decimal number, the empty
field pandas writes for NaN, or the literal `No Data`. -/
def renderCell : CellValue → List Char
  | .price v => scaledToChars (v * 100).num
  | .nan => []
  | .noData => ("No Data").toList

/-- The five cell texts of one exported row. -/
def renderRow (s : DaySummary) : List (List Char) :=
  [dateToChars s.Date, s.Day, renderCell s.morning, renderCell s.midMorning,
   renderCell s.marketClose]

/-- The header row `df.to_csv` writes: the column names in insertion order of
the row dict (line 119, line 121). -/
def csvHeaderLine : List Char :=
  joinSep ',' (("Date").toList :: ("Day").toList :: intervals.map (fun iv => iv.1))

/-- Lines 143-147 of app.py (`df.to_csv(index=False)`): the header line and
one line per day, each line terminated by a newline. -/
def export_to_csv (rows : List DaySummary) : List Char :=
  ((csvHeaderLine :: rows.map (fun s => joinSep ',' (renderRow s))).map
    (fun l => l ++ ['\n'])).flatten

/-- Read a non-negative decimal cell text back as the value scaled by 100. -/
def parseScaled (cs : List Char) : Option Nat :=
  match splitSep '.' cs with
  | [ip, fp] =>
    match parseNat ip, parseNat fp with
    | some i, some f =>
      if fp.length = 1 then some (i * 100 + f * 10)
      else if fp.length = 2 then some (i * 100 + f)
      else none
    | _, _ => none
  | _ => none

/-- Read a signed decimal cell text back as the value scaled by 100. -/
def parseDec (cs : List Char) : Option Int :=
  match cs with
  | [] => none
  | c :: rest =>
    if c = '-' then (parseScaled rest).map (fun n => -(n : Int))
    else (parseScaled cs).map (fun n => (n : Int))

/-- Read one interval cell back. -/
def parseCell (cs : List Char) : Option CellValue :=
  if cs = [] then some .nan
  else if cs = ("No Data").toList then some .noData
  else (parseDec cs).map (fun n => .price ((n : ℚ) / 100))

/-- One re-parsed CSV row: the civil date, the weekday text and the three
interval values. -/
structure ParsedRow where
  year : Int
  month : Nat
  day : Nat
  dayName : List Char
  morning : CellValue
  midMorning : CellValue
  marketClose : CellValue
deriving DecidableEq, Repr

/-- Read one data line of the CSV back. -/
def parseRow (cs : List Char) : Option ParsedRow :=
  match splitSep ',' cs with
  | [dcs, ncs, c1, c2, c3] =>
    match parseDate dcs, parseCell c1, parseCell c2, parseCell c3 with
    | some (y, m, d), some v1, some v2, some v3 =>
      some ⟨y, m, d, ncs, v1, v2, v3⟩
    | _, _, _, _ => none
  | _ => none

/-- Read a whole exported CSV back: split into newline-terminated lines,
check the header, parse every data line. -/
def parseCsv (csv : List Char) : Option (List ParsedRow) :=
  match (splitSep '\n' csv).dropLast with
  | [] => none
  | h :: body => if h = csvHeaderLine then body.mapM parseRow else none

/-- What re-parsing one exported `DaySummary` must reproduce: the same civil
date, the same weekday text, the same three interval values. -/
def expectedParsed (s : DaySummary) : ParsedRow :=
  { year := (civilFromDays s.Date).1
    month := (civilFromDays s.Date).2.1
    day := (civilFromDays s.Date).2.2
    dayName := s.Day
    morning := s.morning
    midMorning := s.midMorning
    marketClose := s.marketClose }

/-- A cell of the spec's `DaySummary` data model: a price rounded to two
decimals, or the explicit "no data" marker. -/
def ValidCell : CellValue → Prop
  | .price v => (v * 100).den = 1
  | .nan => False
  | .noData => True

instance : (c : CellValue) → Decidable (ValidCell c)
  | .price v => inferInstanceAs (Decidable ((v * 100).den = 1))
  | .nan => inferInstanceAs (Decidable False)
  | .noData => inferInstanceAs (Decidable True)

/-- The invariants of the spec's `DaySummary` rows: a four-digit year, the
weekday text one of the seven full names, every cell a two-decimal price or
the "No Data" marker. -/
def ValidSummary (s : DaySummary) : Prop :=
  1000 ≤ (civilFromDays s.Date).1 ∧ (civilFromDays s.Date).1 ≤ 9999 ∧
  s.Day ∈ (["Monday", "Tuesday", "Wednesday", "Thursday", "Friday",
            "Saturday", "Sunday"].map String.toList) ∧
  ValidCell s.morning ∧ ValidCell s.midMorning ∧ ValidCell s.marketClose

instance (s : DaySummary) : Decidable (ValidSummary s) := by
  unfold ValidSummary; infer_instance

/-! ## Concrete bars used by witnesses and counterexamples

`1704204000` is 2024-01-02T14:00:00Z, i.e. 09:00 Eastern on Tuesday
2024-01-02 (day 19724); `1704204300` is five minutes later (09:05 Eastern). -/

/-- Scenario A of the spec: one bar at 09:10-equivalent local time with
O=10, H=12, L=9, C=11. -/
def scenarioBar : RawBar := ⟨1704204000, some 10, some 12, some 9, some 11, none⟩

/-- A fully parsed bar with every price 1, in the Morning window. -/
def cxBarA : RawBar := ⟨1704204000, some 1, some 1, some 1, some 1, none⟩

/-- A bar with only its Open parsed (value 3), in the Morning window. -/
def cxBarB : RawBar := ⟨1704204300, some 3, none, none, none, none⟩

/-- A bar missing Low and Close, in the Morning window. -/
def cxBarC : RawBar := ⟨1704204000, some 10, some 12, none, none, none⟩

/-- A bar missing Open and High, in the Morning window. -/
def cxBarD : RawBar := ⟨1704204300, none, none, some 9, some 11, none⟩

/-- The row used by the C9 witness. -/
def csvWitnessRow : DaySummary :=
  ⟨19724, ("Tuesday").toList, .price (21/2), .noData, .noData⟩

instance : IsTotal DaySummary (fun a b => b.Date ≤ a.Date) :=
  ⟨fun a b => le_total b.Date a.Date⟩

instance : IsTrans DaySummary (fun a b => b.Date ≤ a.Date) :=
  ⟨fun _ _ _ hab hbc => le_trans hbc hab⟩

/-! ## Helper lemmas -/

theorem daySummary_Date (rows : List RawBar) (d : Int) : (daySummary rows d).Date = d := rfl

/-- Evaluation of the pipeline on the Scenario-A bar: one bar at 09:00 Eastern
on Tuesday 2024-01-02 with O=10, H=12, L=9, C=11 gives a Morning average of
10.5 and "No Data" elsewhere. -/
theorem process_scenario_eval :
    process_data_for_intervals [scenarioBar] 1704204000 =
      .table [⟨19724, ("Tuesday").toList, .price (21/2), .noData, .noData⟩] := by
  have h1 : easternClock 1704204000 = 32400 := by decide
  have h2 : easternDate 1704204000 = 19724 := by decide
  simp +decide [process_data_for_intervals, windowFilter, tradingDates, daySummary,
    rowsOfDate, intervalCell, matchingRows, meanOfMeans, colMean, scenarioBar, h1, h2,
    weekdayName, weekday, round2, roundHalfEven]
  norm_num

theorem filterMap_cons_sum (f : RawBar → Option ℚ) (b : RawBar) (tl : List RawBar) :
    ((b :: tl).filterMap f).sum = (f b).getD 0 + (tl.filterMap f).sum := by
  cases h : f b <;> simp [List.filterMap_cons, h]

theorem filterMap_cons_length (f : RawBar → Option ℚ) (b : RawBar) (tl : List RawBar) :
    ((b :: tl).filterMap f).length =
      (if (f b).isSome then 1 else 0) + (tl.filterMap f).length := by
  cases h : f b <;> simp [List.filterMap_cons, h]
  omega

theorem optSum4 (o h l c : Option ℚ) :
    ([o, h, l, c].filterMap id).sum = o.getD 0 + h.getD 0 + l.getD 0 + c.getD 0 := by
  cases o <;> cases h <;> cases l <;> cases c <;> simp <;> ring

theorem optLen4 (o h l c : Option ℚ) :
    ([o, h, l, c].filterMap id).length =
      (if o.isSome then 1 else 0) + (if h.isSome then 1 else 0)
      + (if l.isSome then 1 else 0) + (if c.isSome then 1 else 0) := by
  cases o <;> cases h <;> cases l <;> cases c <;> simp

theorem flattenedOHLC_cons (b : RawBar) (tl : List RawBar) :
    flattenedOHLC (b :: tl) =
      [b.Open, b.High, b.Low, b.Close].filterMap id ++ flattenedOHLC tl := by
  simp [flattenedOHLC]

/-- The flattened values sum to the four column sums. -/
theorem flattenedOHLC_sum_eq (m : List RawBar) :
    (flattenedOHLC m).sum = (m.filterMap (fun b => b.Open)).sum
      + (m.filterMap (fun b => b.High)).sum + (m.filterMap (fun b => b.Low)).sum
      + (m.filterMap (fun b => b.Close)).sum := by
  induction m with
  | nil => simp [flattenedOHLC]
  | cons b tl ih =>
    rw [flattenedOHLC_cons, List.sum_append, optSum4, ih,
      filterMap_cons_sum, filterMap_cons_sum, filterMap_cons_sum, filterMap_cons_sum]
    ring

/-- The flattened values count to the four column counts. -/
theorem flattenedOHLC_length_eq (m : List RawBar) :
    (flattenedOHLC m).length = (m.filterMap (fun b => b.Open)).length
      + (m.filterMap (fun b => b.High)).length + (m.filterMap (fun b => b.Low)).length
      + (m.filterMap (fun b => b.Close)).length := by
  induction m with
  | nil => simp [flattenedOHLC]
  | cons b tl ih =>
    rw [flattenedOHLC_cons, List.length_append, optLen4, ih,
      filterMap_cons_length, filterMap_cons_length, filterMap_cons_length,
      filterMap_cons_length]
    ring

theorem length_filterMap_of_isSome (f : RawBar → Option ℚ) (l : List RawBar)
    (h : ∀ a ∈ l, (f a).isSome = true) : (l.filterMap f).length = l.length := by
  induction l with
  | nil => rfl
  | cons a tl ih =>
    obtain ⟨b, hb⟩ := Option.isSome_iff_exists.mp (h a (by simp))
    simp [List.filterMap_cons, hb, ih (fun x hx => h x (by simp [hx]))]

/-- `colMean` over a mapped column, in terms of `filterMap`. -/
theorem colMean_map (f : RawBar → Option ℚ) (rows : List RawBar) :
    colMean (rows.map f) =
      if rows.filterMap f = [] then none else some (qmean (rows.filterMap f)) := by
  simp only [colMean, List.filterMap_map, qmean]
  rfl

theorem filterMap_id_somes (a b c d : ℚ) :
    ([some a, some b, some c, some d] : List (Option ℚ)).filterMap id = [a, b, c, d] := by
  simp

/-- When each price column has at least one parsed value, the code's
mean-of-column-means is the unweighted average of the four per-field means. -/
theorem meanOfMeans_eq_fieldMeans (m : List RawBar)
    (hO : m.filterMap (fun b => b.Open) ≠ [])
    (hH : m.filterMap (fun b => b.High) ≠ [])
    (hL : m.filterMap (fun b => b.Low) ≠ [])
    (hC : m.filterMap (fun b => b.Close) ≠ []) :
    meanOfMeans m = some ((fieldMean (fun b => b.Open) m + fieldMean (fun b => b.High) m
      + fieldMean (fun b => b.Low) m + fieldMean (fun b => b.Close) m) / 4) := by
  simp only [meanOfMeans, colMean_map, if_neg hO, if_neg hH, if_neg hL, if_neg hC,
    filterMap_id_somes]
  rw [if_neg (by simp)]
  simp only [List.sum_cons, List.sum_nil, List.length_cons, List.length_nil, fieldMean]
  norm_num
  ring

/-- When the four columns have equally many parsed values, the average of the
four per-field means is the pooled mean of all parsed values. -/
theorem fieldMeans_avg_eq_pooled (m : List RawBar) (k : Nat) (hk : k ≠ 0)
    (h1 : (m.filterMap (fun b => b.Open)).length = k)
    (h2 : (m.filterMap (fun b => b.High)).length = k)
    (h3 : (m.filterMap (fun b => b.Low)).length = k)
    (h4 : (m.filterMap (fun b => b.Close)).length = k) :
    (fieldMean (fun b => b.Open) m + fieldMean (fun b => b.High) m
      + fieldMean (fun b => b.Low) m + fieldMean (fun b => b.Close) m) / 4
      = qmean (flattenedOHLC m) := by
  have hkq : (k : ℚ) ≠ 0 := Nat.cast_ne_zero.mpr hk
  have hlen : (flattenedOHLC m).length = 4 * k := by
    rw [flattenedOHLC_length_eq, h1, h2, h3, h4]; ring
  rw [qmean, flattenedOHLC_sum_eq, hlen]
  rw [fieldMean, fieldMean, fieldMean, fieldMean, qmean, qmean, qmean, qmean,
    h1, h2, h3, h4]
  rw [div_add_div_same, div_add_div_same, div_add_div_same, div_div]
  push_cast
  ring_nf

/-! ## CSV lemmas -/

theorem isDigitCh_digitCh (d : Nat) (h : d < 10) : isDigitCh (digitCh d) = true := by
  interval_cases d <;> decide

theorem charDigit_digitCh (d : Nat) (h : d < 10) : charDigit (digitCh d) = d := by
  interval_cases d <;> decide

theorem ne_of_digit_of_not {c c' : Char} (h : isDigitCh c = true)
    (h' : isDigitCh c' = false) : c ≠ c' := by
  intro e; subst e; rw [h] at h'; cases h'

theorem natToCharsAux_digits (fuel : Nat) : ∀ (n : Nat), ∀ c ∈ natToCharsAux fuel n,
    isDigitCh c = true := by
  induction fuel with
  | zero => intro n c hc; simp [natToCharsAux] at hc
  | succ fuel ih =>
    intro n c hc
    rw [natToCharsAux] at hc
    split at hc
    · simp at hc
    · rcases List.mem_append.mp hc with h | h
      · exact ih _ c h
      · simp only [List.mem_singleton] at h
        subst h
        exact isDigitCh_digitCh _ (Nat.mod_lt _ (by norm_num))

theorem foldl_natToCharsAux (fuel : Nat) : ∀ n a : Nat, n ≤ fuel →
    (natToCharsAux fuel n).foldl (fun x c => x * 10 + charDigit c) a
      = a * 10 ^ (natToCharsAux fuel n).length + n := by
  induction fuel with
  | zero =>
    intro n a h
    have : n = 0 := by omega
    subst this
    simp [natToCharsAux]
  | succ fuel ih =>
    intro n a h
    rw [natToCharsAux]
    by_cases hn : n = 0
    · subst hn; simp
    · rw [if_neg hn, List.foldl_append, List.length_append,
        ih (n / 10) a (by
          have := Nat.div_lt_self (Nat.pos_of_ne_zero hn) (by norm_num : 1 < 10)
          omega)]
      simp only [List.foldl_cons, List.foldl_nil, List.length_singleton]
      rw [charDigit_digitCh _ (Nat.mod_lt _ (by norm_num))]
      have hrec : 10 * (n / 10) + n % 10 = n := Nat.div_add_mod n 10
      calc (a * 10 ^ (natToCharsAux fuel (n / 10)).length + n / 10) * 10 + n % 10
          = a * (10 ^ (natToCharsAux fuel (n / 10)).length * 10)
            + (10 * (n / 10) + n % 10) := by ring
        _ = a * 10 ^ ((natToCharsAux fuel (n / 10)).length + 1) + n := by
            rw [hrec, pow_succ]

theorem natToCharsAux_ne_nil (fuel n : Nat) (h1 : n ≠ 0) (h2 : n ≤ fuel) :
    natToCharsAux fuel n ≠ [] := by
  cases fuel with
  | zero => omega
  | succ fuel => rw [natToCharsAux, if_neg h1]; simp

theorem natToChars_digits (n : Nat) : ∀ c ∈ natToChars n, isDigitCh c = true := by
  unfold natToChars
  split
  · intro c hc; simp at hc; subst hc; decide
  · exact natToCharsAux_digits n n

theorem natToChars_ne_nil (n : Nat) : natToChars n ≠ [] := by
  unfold natToChars
  split
  · simp
  · exact natToCharsAux_ne_nil n n (by assumption) le_rfl

theorem parseNat_natToChars (n : Nat) : parseNat (natToChars n) = some n := by
  by_cases hn : n = 0
  · subst hn; decide
  · unfold parseNat
    rw [if_pos ⟨natToChars_ne_nil n,
      List.all_eq_true.mpr (fun c hc => natToChars_digits n c hc)⟩]
    unfold natToChars
    rw [if_neg hn, foldl_natToCharsAux n n 0 le_rfl]
    simp

theorem foldl_replicate_zeros (m : Nat) :
    (List.replicate m '0').foldl (fun x c => x * 10 + charDigit c) 0 = 0 := by
  induction m with
  | zero => rfl
  | succ m ih =>
    rw [List.replicate_succ, List.foldl_cons]
    have h0 : (0 * 10 + charDigit '0') = 0 := by decide
    rw [h0, ih]

theorem padZeros_digits (k : Nat) (cs : List Char)
    (h : ∀ c ∈ cs, isDigitCh c = true) : ∀ c ∈ padZeros k cs, isDigitCh c = true := by
  intro c hc
  rcases List.mem_append.mp hc with h' | h'
  · rw [List.eq_of_mem_replicate h']; decide
  · exact h c h'

theorem parseNat_padZeros (k : Nat) (cs : List Char) (n : Nat)
    (h : parseNat cs = some n) : parseNat (padZeros k cs) = some n := by
  unfold parseNat at h ⊢
  split at h
  · rename_i hcs
    rw [Option.some_inj] at h
    rw [if_pos ⟨by simp [padZeros, hcs.1], List.all_eq_true.mpr
      (padZeros_digits k cs (fun c hc => List.all_eq_true.mp hcs.2 c hc))⟩]
    rw [padZeros, List.foldl_append, foldl_replicate_zeros, h]
  · exact absurd h (by simp)

theorem splitSep_ne_nil (sep : Char) (l : List Char) : splitSep sep l ≠ [] := by
  induction l with
  | nil => simp [splitSep]
  | cons c cs ih =>
    cases h : splitSep sep cs with
    | nil => exact absurd h ih
    | cons p ps => by_cases hc : c = sep <;> simp [splitSep, h, hc]

theorem splitSep_of_not_mem (sep : Char) (l : List Char) (h : sep ∉ l) :
    splitSep sep l = [l] := by
  induction l with
  | nil => rfl
  | cons c cs ih =>
    have hc : c ≠ sep := fun e => h (by simp [e])
    have hcs : sep ∉ cs := fun m => h (by simp [m])
    rw [splitSep, ih hcs]
    simp [hc]

theorem splitSep_append (sep : Char) (a b : List Char) (h : sep ∉ a) :
    splitSep sep (a ++ sep :: b) = a :: splitSep sep b := by
  induction a with
  | nil =>
    simp only [List.nil_append]
    cases hb : splitSep sep b with
    | nil => exact absurd hb (splitSep_ne_nil sep b)
    | cons p ps => simp [splitSep, hb]
  | cons c a' ih =>
    have hc : c ≠ sep := fun e => h (by simp [e])
    have ha : sep ∉ a' := fun m => h (by simp [m])
    rw [List.cons_append, splitSep, ih ha]
    simp [hc]

theorem splitSep_joinSep (sep : Char) (css : List (List Char)) (hne : css ≠ [])
    (h : ∀ x ∈ css, sep ∉ x) : splitSep sep (joinSep sep css) = css := by
  induction css with
  | nil => exact absurd rfl hne
  | cons a rest ih =>
    cases rest with
    | nil => simpa [joinSep] using splitSep_of_not_mem sep a (h a (by simp))
    | cons a' rest' =>
      rw [joinSep, splitSep_append sep a _ (h a (by simp)),
        ih (by simp) (fun x hx => h x (by simp [hx]))]

theorem mem_joinSep (sep : Char) (css : List (List Char)) (c : Char)
    (hc : c ∈ joinSep sep css) : c = sep ∨ ∃ x ∈ css, c ∈ x := by
  induction css with
  | nil => simp [joinSep] at hc
  | cons a rest ih =>
    cases rest with
    | nil => exact Or.inr ⟨a, by simp, by simpa [joinSep] using hc⟩
    | cons a' rest' =>
      rw [joinSep] at hc
      rcases List.mem_append.mp hc with h | h
      · exact Or.inr ⟨a, by simp, h⟩
      · rcases List.mem_cons.mp h with h | h
        · exact Or.inl h
        · rcases ih h with h | ⟨x, hx, hcx⟩
          · exact Or.inl h
          · exact Or.inr ⟨x, by simp [hx], hcx⟩

theorem flatten_terminated (ls : List (List Char)) :
    ((ls.map (fun l => l ++ ['\n'])).flatten) = joinSep '\n' (ls ++ [[]]) := by
  induction ls with
  | nil => rfl
  | cons a rest ih =>
    rw [List.map_cons, List.flatten_cons, ih]
    cases h : rest ++ [[]] with
    | nil => simp at h
    | cons b bs =>
      rw [List.cons_append, h, joinSep]
      simp

theorem natToChars_head (n : Nat) :
    ∃ hc tl, natToChars n = hc :: tl ∧ isDigitCh hc = true := by
  cases h : natToChars n with
  | nil => exact absurd h (natToChars_ne_nil n)
  | cons hc tl => exact ⟨hc, tl, rfl, natToChars_digits n hc (by simp [h])⟩

theorem parseNat_single_digit (d : Nat) (h : d < 10) : parseNat [digitCh d] = some d := by
  unfold parseNat
  rw [if_pos ⟨by simp, by simp [isDigitCh_digitCh d h]⟩]
  simp [charDigit_digitCh d h]

theorem parseNat_two_digits (d1 d2 : Nat) (h1 : d1 < 10) (h2 : d2 < 10) :
    parseNat [digitCh d1, digitCh d2] = some (d1 * 10 + d2) := by
  unfold parseNat
  rw [if_pos ⟨by simp, by simp [isDigitCh_digitCh d1 h1, isDigitCh_digitCh d2 h2]⟩]
  simp [charDigit_digitCh d1 h1, charDigit_digitCh d2 h2]

theorem parseScaled_scaledNatToChars (m : Nat) :
    parseScaled (scaledNatToChars m) = some m := by
  have hdot : isDigitCh '.' = false := by decide
  have hip : '.' ∉ natToChars (m / 100) := fun hm => by
    have := natToChars_digits _ _ hm
    rw [this] at hdot
    cases hdot
  have hm10 : m % 100 / 10 < 10 := by omega
  have hm1 : m % 100 % 10 < 10 := by omega
  unfold scaledNatToChars parseScaled
  rw [splitSep_append '.' _ _ hip]
  by_cases h0 : m % 100 = 0
  · rw [if_pos h0, splitSep_of_not_mem _ _ (by decide : '.' ∉ ['0'])]
    have hp0 : parseNat ['0'] = some 0 := by decide
    dsimp only
    rw [parseNat_natToChars, hp0]
    dsimp only
    norm_num
    omega
  · rw [if_neg h0]
    by_cases h1 : m % 100 % 10 = 0
    · rw [if_pos h1, splitSep_of_not_mem _ _ (fun hm => by
        simp only [List.mem_singleton] at hm
        have hd := isDigitCh_digitCh _ hm10
        rw [← hm, hdot] at hd
        cases hd)]
      dsimp only
      rw [parseNat_natToChars, parseNat_single_digit _ hm10]
      dsimp only
      norm_num
      omega
    · rw [if_neg h1, splitSep_of_not_mem _ _ (fun hm => by
        simp only [List.mem_cons, List.mem_singleton, List.not_mem_nil, or_false] at hm
        rcases hm with hm | hm
        · have hd := isDigitCh_digitCh _ hm10
          rw [← hm, hdot] at hd
          cases hd
        · have hd := isDigitCh_digitCh _ hm1
          rw [← hm, hdot] at hd
          cases hd)]
      dsimp only
      rw [parseNat_natToChars, parseNat_two_digits _ _ hm10 hm1]
      dsimp only
      norm_num
      omega

theorem scaledNatToChars_head (m : Nat) :
    ∃ hc tl, scaledNatToChars m = hc :: tl ∧ isDigitCh hc = true := by
  obtain ⟨hc, tl, heq, hd⟩ := natToChars_head (m / 100)
  refine ⟨hc, tl ++ '.' :: (if m % 100 = 0 then ['0']
     else if m % 100 % 10 = 0 then [digitCh (m % 100 / 10)]
     else [digitCh (m % 100 / 10), digitCh (m % 100 % 10)]), ?_, hd⟩
  rw [scaledNatToChars, heq, List.cons_append]

theorem parseDec_scaledToChars (n : Int) : parseDec (scaledToChars n) = some n := by
  unfold scaledToChars
  by_cases hn : n < 0
  · rw [if_pos hn]
    simp [parseDec, parseScaled_scaledNatToChars]
    rw [abs_of_neg hn]
    ring
  · rw [if_neg hn]
    obtain ⟨hc, tl, heq, hd⟩ := scaledNatToChars_head n.toNat
    rw [heq]
    simp only [parseDec]
    rw [if_neg (ne_of_digit_of_not hd (by decide)), ← heq,
      parseScaled_scaledNatToChars]
    simp
    omega

theorem noData_chars : ("No Data").toList = ['N', 'o', ' ', 'D', 'a', 't', 'a'] := by decide

theorem scaledToChars_ne_nil (n : Int) : scaledToChars n ≠ [] := by
  unfold scaledToChars
  split
  · simp
  · obtain ⟨hc, tl, heq, _⟩ := scaledNatToChars_head n.toNat
    rw [heq]
    simp

theorem scaledToChars_ne_noData (n : Int) : scaledToChars n ≠ ("No Data").toList := by
  rw [noData_chars]
  unfold scaledToChars
  split
  · intro h
    injection h with h1 _
    exact absurd h1 (by decide)
  · obtain ⟨hc, tl, heq, hd⟩ := scaledNatToChars_head n.toNat
    rw [heq]
    intro h
    injection h with h1 _
    rw [h1] at hd
    exact absurd hd (by decide)

/-- Re-parsing one rendered cell gives the cell back (for cells of the spec's
data model). -/
theorem parseCell_renderCell (c : CellValue) (h : ValidCell c) :
    parseCell (renderCell c) = some c := by
  cases c with
  | nan => exact h.elim
  | noData => decide
  | price v =>
    have hden : (v * 100).den = 1 := h
    have hnum : ((v * 100).num : ℚ) = v * 100 := by
      have h2 := Rat.num_div_den (v * 100)
      rw [hden] at h2
      simpa using h2
    unfold renderCell parseCell
    rw [if_neg (scaledToChars_ne_nil _), if_neg (scaledToChars_ne_noData _),
      parseDec_scaledToChars]
    have hv : ((v * 100).num : ℚ) / 100 = v := by
      rw [hnum]
      field_simp
    simp [hv]

theorem mem_scaledNatToChars (m : Nat) (c : Char) (hc : c ∈ scaledNatToChars m) :
    isDigitCh c = true ∨ c = '.' := by
  have hm10 : m % 100 / 10 < 10 := by omega
  have hm1 : m % 100 % 10 < 10 := by omega
  unfold scaledNatToChars at hc
  rcases List.mem_append.mp hc with h | h
  · exact Or.inl (natToChars_digits _ _ h)
  · rcases List.mem_cons.mp h with h | h
    · exact Or.inr h
    · left
      split at h
      · simp only [List.mem_singleton] at h
        rw [h]
        decide
      · split at h
        · simp only [List.mem_singleton] at h
          rw [h]
          exact isDigitCh_digitCh _ hm10
        · rcases List.mem_cons.mp h with h | h
          · rw [h]
            exact isDigitCh_digitCh _ hm10
          · simp only [List.mem_singleton] at h
            rw [h]
            exact isDigitCh_digitCh _ hm1

theorem mem_scaledToChars (n : Int) (c : Char) (hc : c ∈ scaledToChars n) :
    isDigitCh c = true ∨ c = '-' ∨ c = '.' := by
  unfold scaledToChars at hc
  split at hc
  · rcases List.mem_cons.mp hc with h | h
    · exact Or.inr (Or.inl h)
    · rcases mem_scaledNatToChars _ _ h with h' | h'
      · exact Or.inl h'
      · exact Or.inr (Or.inr h')
  · rcases mem_scaledNatToChars _ _ hc with h' | h'
    · exact Or.inl h'
    · exact Or.inr (Or.inr h')

theorem mem_dateToChars (d : Int) (c : Char) (hc : c ∈ dateToChars d) :
    isDigitCh c = true ∨ c = '-' := by
  unfold dateToChars at hc
  rcases List.mem_append.mp hc with h | h
  · exact Or.inl (padZeros_digits _ _ (natToChars_digits _) c h)
  · rcases List.mem_cons.mp h with h | h
    · exact Or.inr h
    · rcases List.mem_append.mp h with h | h
      · exact Or.inl (padZeros_digits _ _ (natToChars_digits _) c h)
      · rcases List.mem_cons.mp h with h | h
        · exact Or.inr h
        · exact Or.inl (padZeros_digits _ _ (natToChars_digits _) c h)

/-- No character of any weekday name is a comma or a newline. -/
theorem dayNames_ok : ∀ nm ∈ (["Monday", "Tuesday", "Wednesday", "Thursday",
    "Friday", "Saturday", "Sunday"].map String.toList),
    ∀ c ∈ nm, ¬(c = ',' ∨ c = '\n') := by decide

theorem mem_renderCell (cell : CellValue) (c : Char) (hc : c ∈ renderCell cell) :
    c ≠ ',' ∧ c ≠ '\n' := by
  cases cell with
  | nan => simp [renderCell] at hc
  | noData =>
    rw [renderCell, noData_chars] at hc
    fin_cases hc <;> exact ⟨by decide, by decide⟩
  | price v =>
    rcases mem_scaledToChars _ c hc with h | h | h
    · exact ⟨ne_of_digit_of_not h (by decide), ne_of_digit_of_not h (by decide)⟩
    · rw [h]
      exact ⟨by decide, by decide⟩
    · rw [h]
      exact ⟨by decide, by decide⟩

theorem mem_dateToChars_ok (d : Int) (c : Char) (hc : c ∈ dateToChars d) :
    c ≠ ',' ∧ c ≠ '\n' := by
  rcases mem_dateToChars d c hc with h | h
  · exact ⟨ne_of_digit_of_not h (by decide), ne_of_digit_of_not h (by decide)⟩
  · rw [h]
    exact ⟨by decide, by decide⟩

/-- Re-parsing one rendered date gives back the civil date. -/
theorem parseDate_dateToChars (d : Int) (h1 : 1000 ≤ (civilFromDays d).1)
    (h2 : (civilFromDays d).1 ≤ 9999) :
    parseDate (dateToChars d) =
      some ((civilFromDays d).1, (civilFromDays d).2.1, (civilFromDays d).2.2) := by
  have hdash : isDigitCh '-' = false := by decide
  have hY : '-' ∉ padZeros 4 (natToChars (civilFromDays d).1.toNat) := fun hm => by
    have := padZeros_digits _ _ (natToChars_digits _) _ hm
    rw [hdash] at this
    cases this
  have hM : '-' ∉ padZeros 2 (natToChars (civilFromDays d).2.1) := fun hm => by
    have := padZeros_digits _ _ (natToChars_digits _) _ hm
    rw [hdash] at this
    cases this
  have hD : '-' ∉ padZeros 2 (natToChars (civilFromDays d).2.2) := fun hm => by
    have := padZeros_digits _ _ (natToChars_digits _) _ hm
    rw [hdash] at this
    cases this
  unfold parseDate dateToChars
  rw [splitSep_append _ _ _ hY, splitSep_append _ _ _ hM, splitSep_of_not_mem _ _ hD]
  dsimp only
  rw [parseNat_padZeros _ _ _ (parseNat_natToChars _),
    parseNat_padZeros _ _ _ (parseNat_natToChars _),
    parseNat_padZeros _ _ _ (parseNat_natToChars _)]
  dsimp only
  rw [Int.toNat_of_nonneg (by omega)]

/-- Re-parsing one rendered data row reproduces the civil date, weekday text
and interval values. -/
theorem parseRow_renderRow (s : DaySummary) (h : ValidSummary s) :
    parseRow (joinSep ',' (renderRow s)) = some (expectedParsed s) := by
  obtain ⟨hy1, hy2, hday, hm1, hm2, hm3⟩ := h
  have hnc : ∀ x ∈ renderRow s, ',' ∉ x := by
    intro x hx
    unfold renderRow at hx
    simp only [List.mem_cons, List.not_mem_nil, or_false] at hx
    rcases hx with rfl | rfl | rfl | rfl | rfl
    · exact fun hm => (mem_dateToChars_ok _ _ hm).1 rfl
    · exact fun hm => (dayNames_ok _ hday _ hm) (Or.inl rfl)
    · exact fun hm => (mem_renderCell _ _ hm).1 rfl
    · exact fun hm => (mem_renderCell _ _ hm).1 rfl
    · exact fun hm => (mem_renderCell _ _ hm).1 rfl
  unfold parseRow
  rw [splitSep_joinSep ',' _ (by unfold renderRow; simp) hnc]
  unfold renderRow
  dsimp only
  rw [parseDate_dateToChars s.Date hy1 hy2, parseCell_renderCell _ hm1,
    parseCell_renderCell _ hm2, parseCell_renderCell _ hm3]
  rfl

theorem mapM_parseRow (rows : List DaySummary) (h : ∀ s ∈ rows, ValidSummary s) :
    (rows.map (fun s => joinSep ',' (renderRow s))).mapM parseRow
      = some (rows.map expectedParsed) := by
  induction rows with
  | nil => rfl
  | cons s tl ih =>
    rw [List.map_cons, List.map_cons, List.mapM_cons,
      parseRow_renderRow s (h s (by simp)), ih (fun x hx => h x (by simp [hx]))]
    rfl

theorem csvHeaderLine_no_newline : ('\n') ∉ csvHeaderLine := by decide

/-! ## Claims -/

/-- C2: every row the aggregator outputs bears a date whose weekday index is
below 5, i.e. weekend dates never appear in the output, whatever the input
record set and the current time. -/
theorem C2_no_weekend_rows (data : List RawBar) (now : Int) (rows : List DaySummary)
    (h : process_data_for_intervals data now = .table rows) :
    ∀ r ∈ rows, weekday r.Date < 5 := by
  intro r hr
  simp only [process_data_for_intervals] at h
  split at h
  · exact absurd h (by simp)
  · split at h
    · exact absurd h (by simp)
    · rw [AggResult.table.injEq] at h
      subst h
      rw [List.mem_insertionSort] at hr
      obtain ⟨d, hd, rfl⟩ := List.mem_map.mp hr
      unfold tradingDates at hd
      have hw := (List.mem_filter.mp hd).2
      simpa [daySummary] using of_decide_eq_true hw

theorem C2_witness :
    process_data_for_intervals [scenarioBar] 1704204000 =
      .table [⟨19724, ("Tuesday").toList, .price (21/2), .noData, .noData⟩]
    ∧ weekday (19724 : Int) < 5 := by
  refine ⟨process_scenario_eval, ?_⟩
  have := C2_no_weekend_rows [scenarioBar] 1704204000 _ process_scenario_eval
    ⟨19724, ("Tuesday").toList, .price (21/2), .noData, .noData⟩ (by simp)
  simpa using this

/-- C3: when zero bars of a day fall inside one of the three fixed interval
windows, the cell computed for that day and interval is the explicit "No
Data" marker, never a numeric value. -/
theorem C3_empty_interval_no_data (dayRows : List RawBar) (name : List Char)
    (s e : Int) (_hiv : (name, s, e) ∈ intervals)
    (h : matchingRows dayRows s e = []) :
    intervalCell dayRows s e = .noData ∧ ∀ v : ℚ, intervalCell dayRows s e ≠ .price v := by
  have hc : intervalCell dayRows s e = .noData := by simp [intervalCell, h]
  exact ⟨hc, fun v hv => by rw [hc] at hv; exact absurd hv (by simp)⟩

theorem C3_witness :
    ((("Mid-Morning (11:00-11:30 AM)").toList, (39600 : Int), (41400 : Int)) ∈ intervals
      ∧ matchingRows [scenarioBar] 39600 41400 = [])
    ∧ intervalCell [scenarioBar] 39600 41400 = .noData := by
  refine ⟨⟨by decide, by decide⟩, ?_⟩
  exact (C3_empty_interval_no_data [scenarioBar] (("Mid-Morning (11:00-11:30 AM)").toList)
    39600 41400 (by decide) (by decide)).1

/-- C4: the aggregator retains exactly the bars whose timestamp lies in the
closed window from ten days (864000 s) before `now` up to `now`; when the
retained set is empty it returns the distinct empty outcome carrying the
warning text, and produces no table. -/
theorem C4_window_filter (data : List RawBar) (now : Int) (hne : data ≠ []) :
    (∀ b, b ∈ windowFilter data now ↔ b ∈ data ∧ now - 10 * 86400 ≤ b.ts ∧ b.ts ≤ now)
    ∧ (windowFilter data now = [] →
        process_data_for_intervals data now =
          .emptyWarn (("No data available for the past 7 days.").toList)
        ∧ ∀ rows, process_data_for_intervals data now ≠ .table rows) := by
  refine ⟨fun b => ?_, fun hemp => ?_⟩
  · simp [windowFilter, List.mem_filter, and_assoc]
  · have hp : process_data_for_intervals data now =
        .emptyWarn (("No data available for the past 7 days.").toList) := by
      simp [process_data_for_intervals, hne, hemp]
    exact ⟨hp, fun rows h => by rw [hp] at h; exact absurd h (by simp)⟩

theorem C4_witness :
    (([scenarioBar] : List RawBar) ≠ [] ∧ windowFilter [scenarioBar] 0 = [])
    ∧ process_data_for_intervals [scenarioBar] 0 =
        .emptyWarn (("No data available for the past 7 days.").toList) := by
  refine ⟨⟨List.cons_ne_nil _ _, by decide⟩, ?_⟩
  exact ((C4_window_filter [scenarioBar] 0 (List.cons_ne_nil _ _)).2 (by decide)).1

/-- C5: a successful HTTP response is classified in priority order — an
explicit error field gives `apiError`; otherwise either rate-limit key gives
`rateLimited`; otherwise a missing time-series key gives `noData` citing the
symbol; otherwise the raw series is returned — and no failure ever produces
a table. -/
theorem C5_fetch_classification (symbol : List Char) (r : ApiResponse) :
    (∀ m, r.errorMessage = some m → fetch_intraday_data symbol r = .apiError m)
    ∧ (r.errorMessage = none → (r.note ≠ none ∨ r.information ≠ none) →
        ∃ m, fetch_intraday_data symbol r = .rateLimited m)
    ∧ (r.errorMessage = none → r.note = none → r.information = none →
        r.timeSeries = none →
        fetch_intraday_data symbol r =
          .noData (("No intraday data found for symbol: ").toList ++ symbol
            ++ (". Please check if the symbol is valid.").toList))
    ∧ (∀ ts, r.errorMessage = none → r.note = none → r.information = none →
        r.timeSeries = some ts → fetch_intraday_data symbol r = .success ts)
    ∧ (∀ now, (∀ ts, fetch_intraday_data symbol r ≠ .success ts) →
        runCalculation symbol r now = none) := by
  refine ⟨fun m hm => by simp [fetch_intraday_data, hm], ?_, ?_, ?_, ?_⟩
  · intro h1 h2
    rcases hn : r.note with _ | v
    · rcases h2 with h2 | h2
      · exact absurd hn h2
      · obtain ⟨w, hw⟩ := Option.ne_none_iff_exists'.mp h2
        exact ⟨("API rate limit exceeded. Please wait before making another request.").toList,
          by simp [fetch_intraday_data, h1, hn, hw]⟩
    · exact ⟨("API call frequency limit reached. Please try again later.").toList,
        by simp [fetch_intraday_data, h1, hn]⟩
  · intro h1 h2 h3 h4
    simp [fetch_intraday_data, h1, h2, h3, h4]
  · intro ts h1 h2 h3 h4
    simp [fetch_intraday_data, h1, h2, h3, h4]
  · intro now hnf
    cases hf : fetch_intraday_data symbol r with
    | success ts => exact absurd hf (hnf ts)
    | apiError m => simp [runCalculation, hf]
    | rateLimited m => simp [runCalculation, hf]
    | noData m => simp [runCalculation, hf]

theorem C5_witness :
    (⟨some (("bad").toList), none, none, none⟩ : ApiResponse).errorMessage =
      some (("bad").toList)
    ∧ fetch_intraday_data (("IBM").toList) ⟨some (("bad").toList), none, none, none⟩ =
        .apiError (("bad").toList)
    ∧ runCalculation (("IBM").toList) ⟨some (("bad").toList), none, none, none⟩ 0 = none := by
  refine ⟨rfl, ?_, ?_⟩
  · exact (C5_fetch_classification (("IBM").toList)
      ⟨some (("bad").toList), none, none, none⟩).1 _ rfl
  · exact (C5_fetch_classification (("IBM").toList)
      ⟨some (("bad").toList), none, none, none⟩).2.2.2.2 0
      (fun ts h => by simp [fetch_intraday_data] at h)

/-- C6: each bar is bucketed by its US/Eastern calendar date and clock time,
obtained by reinterpreting the UTC timestamp with the Eastern offset: the
local date and clock are a consistent decomposition of the same converted
instant, and the bar at 2024-01-02T14:00:00Z lands at 09:00 Eastern on
2024-01-02, inside the Morning interval of that day's row — not at its UTC
clock time 14:00. -/
theorem C6_eastern_bucketing :
    (∀ t : Int, easternSec t = easternDate t * 86400 + easternClock t
      ∧ 0 ≤ easternClock t ∧ easternClock t < 86400)
    ∧ daysFromCivil 2024 1 2 * 86400 + 14 * 3600 = 1704204000
    ∧ easternDate 1704204000 = daysFromCivil 2024 1 2
    ∧ easternClock 1704204000 = 9 * 3600
    ∧ (1704204000 : Int) % 86400 = 14 * 3600
    ∧ process_data_for_intervals [scenarioBar] 1704204000 =
        .table [{ Date := daysFromCivil 2024 1 2, Day := ("Tuesday").toList,
                  morning := .price (21/2), midMorning := .noData,
                  marketClose := .noData }] := by
  refine ⟨fun t => ⟨?_, ?_, ?_⟩, by decide, by decide, by decide, by decide, ?_⟩
  · unfold easternDate easternClock
    generalize easternSec t = x
    omega
  · exact Int.emod_nonneg _ (by norm_num)
  · exact Int.emod_lt_of_pos _ (by norm_num)
  · have : daysFromCivil 2024 1 2 = (19724 : Int) := by decide
    rw [process_scenario_eval, this]

/-- C7: `validate_symbol` accepts exactly the nonempty purely-alphabetic
strings of length one to five, and the symbol "aapl1" (uppercased by `main`)
fails validation, so `main` stops before issuing any network call. -/
theorem C7_symbol_validation :
    (∀ s : List Char, validate_symbol s = true ↔
      ((∀ c ∈ s, c.isAlpha = true) ∧ 1 ≤ s.length ∧ s.length ≤ 5))
    ∧ mainDispatch (upperStr (("aapl1").toList)) = .validationError := by
  constructor
  · intro s
    unfold validate_symbol
    rcases eq_or_ne s [] with rfl | h
    · simp
    · simp [h, List.all_eq_true, List.length_pos_iff_ne_nil]
  · decide

/-- C8: the aggregator emits exactly one row per surviving trading day — the
dates of the output are a duplicate-free permutation of the surviving
trading dates — and the output is strictly descending by date. -/
theorem C8_sorted_unique (data : List RawBar) (now : Int) (rows : List DaySummary)
    (h : process_data_for_intervals data now = .table rows) :
    (rows.map (fun r => r.Date)).Perm (tradingDates (windowFilter data now))
    ∧ (rows.map (fun r => r.Date)).Nodup
    ∧ rows.Pairwise (fun a b => b.Date < a.Date) := by
  simp only [process_data_for_intervals] at h
  split at h
  · exact absurd h (by simp)
  · split at h
    · exact absurd h (by simp)
    · rw [AggResult.table.injEq] at h
      subst h
      have hmm : ((tradingDates (windowFilter data now)).map
          (daySummary (windowFilter data now))).map (fun r => r.Date) =
          tradingDates (windowFilter data now) := by
        rw [List.map_map]
        exact List.map_id _
      have hperm : ((List.insertionSort (fun a b => b.Date ≤ a.Date)
          ((tradingDates (windowFilter data now)).map
            (daySummary (windowFilter data now)))).map (fun r => r.Date)).Perm
          (tradingDates (windowFilter data now)) := by
        have h1 := (List.perm_insertionSort (fun a b : DaySummary => b.Date ≤ a.Date)
          ((tradingDates (windowFilter data now)).map
            (daySummary (windowFilter data now)))).map (fun r => r.Date)
        rwa [hmm] at h1
      have hnd : (tradingDates (windowFilter data now)).Nodup := by
        unfold tradingDates
        exact ((List.perm_insertionSort _ _).symm.nodup (List.nodup_dedup _)).filter _
      have hnodup := hperm.symm.nodup hnd
      refine ⟨hperm, hnodup, ?_⟩
      have hsorted : List.Sorted (fun a b : DaySummary => b.Date ≤ a.Date)
          (List.insertionSort (fun a b => b.Date ≤ a.Date)
            ((tradingDates (windowFilter data now)).map
              (daySummary (windowFilter data now)))) :=
        List.sorted_insertionSort (fun a b : DaySummary => b.Date ≤ a.Date) _
      have hne : (List.insertionSort (fun a b => b.Date ≤ a.Date)
          ((tradingDates (windowFilter data now)).map
            (daySummary (windowFilter data now)))).Pairwise
          (fun a b => a.Date ≠ b.Date) :=
        List.pairwise_map.mp hnodup
      exact (List.Pairwise.and hsorted hne).imp
        (fun hab => lt_of_le_of_ne hab.1 hab.2.symm)

/-- C1 fails as literally stated once a matching bar has missing (unparsable)
values: with one fully parsed bar (all four prices 1) and one matching bar
whose only parsed field is Open = 3, the code computes the mean of the
per-column means, 1.25, while the flattened pooled mean of all parsed values
is 1.4. -/
theorem C1_counterexample :
    intervalCell [cxBarA, cxBarB] 32400 34500 ≠
      .price (round2 (qmean (flattenedOHLC (matchingRows [cxBarA, cxBarB] 32400 34500)))) := by
  have h1 : easternClock 1704204000 = 32400 := by decide
  have h2 : easternClock 1704204300 = 32700 := by decide
  have hL : intervalCell [cxBarA, cxBarB] 32400 34500 = .price (5/4) := by
    simp +decide [intervalCell, matchingRows, meanOfMeans, colMean, cxBarA, cxBarB, h1, h2,
      round2, roundHalfEven]
    norm_num
  have hR : round2 (qmean (flattenedOHLC (matchingRows [cxBarA, cxBarB] 32400 34500)))
      = 7/5 := by
    simp +decide [matchingRows, flattenedOHLC, qmean, cxBarA, cxBarB, h1, h2, round2,
      roundHalfEven]
    norm_num
  rw [hL, hR]
  simp only [ne_eq, CellValue.price.injEq]
  norm_num

/-- C1 (amended): for every day's bars and each of the three fixed intervals,
when at least one bar's Eastern clock time lies in the closed window and
every price field of every matching bar parsed successfully, the cell equals
the arithmetic mean of the flattened multiset of all open, high, low, close
values across the matching bars, rounded to two decimals. -/
theorem C1_pooled_mean_when_all_present (dayRows : List RawBar) (name : List Char)
    (s e : Int) (_hiv : (name, s, e) ∈ intervals)
    (hne : matchingRows dayRows s e ≠ [])
    (hall : allPresent (matchingRows dayRows s e)) :
    intervalCell dayRows s e =
      .price (round2 (qmean (flattenedOHLC (matchingRows dayRows s e)))) := by
  set m := matchingRows dayRows s e with hm
  have hlO : (m.filterMap (fun b => b.Open)).length = m.length :=
    length_filterMap_of_isSome _ _ (fun b hb => (hall b hb).1)
  have hlH : (m.filterMap (fun b => b.High)).length = m.length :=
    length_filterMap_of_isSome _ _ (fun b hb => (hall b hb).2.1)
  have hlL : (m.filterMap (fun b => b.Low)).length = m.length :=
    length_filterMap_of_isSome _ _ (fun b hb => (hall b hb).2.2.1)
  have hlC : (m.filterMap (fun b => b.Close)).length = m.length :=
    length_filterMap_of_isSome _ _ (fun b hb => (hall b hb).2.2.2)
  have hn0 : m.length ≠ 0 := fun h => hne (List.length_eq_zero.mp h)
  have hOne : m.filterMap (fun b => b.Open) ≠ [] := by
    intro h; rw [h] at hlO; exact hn0 hlO.symm
  have hHne : m.filterMap (fun b => b.High) ≠ [] := by
    intro h; rw [h] at hlH; exact hn0 hlH.symm
  have hLne : m.filterMap (fun b => b.Low) ≠ [] := by
    intro h; rw [h] at hlL; exact hn0 hlL.symm
  have hCne : m.filterMap (fun b => b.Close) ≠ [] := by
    intro h; rw [h] at hlC; exact hn0 hlC.symm
  have hmm := meanOfMeans_eq_fieldMeans m hOne hHne hLne hCne
  have hpool := fieldMeans_avg_eq_pooled m m.length hn0 hlO hlH hlL hlC
  unfold intervalCell
  rw [← hm, if_neg hne, hmm, hpool]

theorem C1_pooled_mean_witness :
    ((("Morning (9:00-9:35 AM)").toList, (32400 : Int), (34500 : Int)) ∈ intervals
      ∧ matchingRows [scenarioBar] 32400 34500 ≠ []
      ∧ allPresent (matchingRows [scenarioBar] 32400 34500))
    ∧ intervalCell [scenarioBar] 32400 34500 =
        .price (round2 (qmean (flattenedOHLC (matchingRows [scenarioBar] 32400 34500)))) := by
  refine ⟨⟨by decide, by decide, by decide⟩, ?_⟩
  exact C1_pooled_mean_when_all_present [scenarioBar] (("Morning (9:00-9:35 AM)").toList)
    32400 34500 (by decide) (by decide) (by decide)

/-- C10: whenever at least one bar matches an interval and each of the four
price fields has at least one parsed value among the matching bars, the
value computed before rounding is the unweighted mean of the four per-field
means (each taken only over that field's parsed values — missing values are
excluded, not zeroed, and cause no failure), the cell being that value
rounded; and whenever the four fields have equally many parsed values this
coincides with the flattened pooled mean. -/
theorem C10_mean_of_field_means (dayRows : List RawBar) (name : List Char)
    (s e : Int) (_hiv : (name, s, e) ∈ intervals)
    (hne : matchingRows dayRows s e ≠ [])
    (hO : (matchingRows dayRows s e).filterMap (fun b => b.Open) ≠ [])
    (hH : (matchingRows dayRows s e).filterMap (fun b => b.High) ≠ [])
    (hL : (matchingRows dayRows s e).filterMap (fun b => b.Low) ≠ [])
    (hC : (matchingRows dayRows s e).filterMap (fun b => b.Close) ≠ []) :
    meanOfMeans (matchingRows dayRows s e) =
      some ((fieldMean (fun b => b.Open) (matchingRows dayRows s e)
        + fieldMean (fun b => b.High) (matchingRows dayRows s e)
        + fieldMean (fun b => b.Low) (matchingRows dayRows s e)
        + fieldMean (fun b => b.Close) (matchingRows dayRows s e)) / 4)
    ∧ intervalCell dayRows s e =
        .price (round2 ((fieldMean (fun b => b.Open) (matchingRows dayRows s e)
          + fieldMean (fun b => b.High) (matchingRows dayRows s e)
          + fieldMean (fun b => b.Low) (matchingRows dayRows s e)
          + fieldMean (fun b => b.Close) (matchingRows dayRows s e)) / 4))
    ∧ (∀ k : Nat, k ≠ 0 →
        ((matchingRows dayRows s e).filterMap (fun b => b.Open)).length = k →
        ((matchingRows dayRows s e).filterMap (fun b => b.High)).length = k →
        ((matchingRows dayRows s e).filterMap (fun b => b.Low)).length = k →
        ((matchingRows dayRows s e).filterMap (fun b => b.Close)).length = k →
        (fieldMean (fun b => b.Open) (matchingRows dayRows s e)
          + fieldMean (fun b => b.High) (matchingRows dayRows s e)
          + fieldMean (fun b => b.Low) (matchingRows dayRows s e)
          + fieldMean (fun b => b.Close) (matchingRows dayRows s e)) / 4
          = qmean (flattenedOHLC (matchingRows dayRows s e))) := by
  set m := matchingRows dayRows s e with hm
  have hmm := meanOfMeans_eq_fieldMeans m hO hH hL hC
  refine ⟨hmm, ?_, fun k hk h1 h2 h3 h4 => fieldMeans_avg_eq_pooled m k hk h1 h2 h3 h4⟩
  unfold intervalCell
  rw [← hm, if_neg hne, hmm]

theorem C10_witness :
    (matchingRows [cxBarC, cxBarD] 32400 34500 ≠ []
      ∧ (matchingRows [cxBarC, cxBarD] 32400 34500).filterMap (fun b => b.Open) ≠ []
      ∧ (matchingRows [cxBarC, cxBarD] 32400 34500).filterMap (fun b => b.High) ≠ []
      ∧ (matchingRows [cxBarC, cxBarD] 32400 34500).filterMap (fun b => b.Low) ≠ []
      ∧ (matchingRows [cxBarC, cxBarD] 32400 34500).filterMap (fun b => b.Close) ≠ [])
    ∧ meanOfMeans (matchingRows [cxBarC, cxBarD] 32400 34500) =
        some ((fieldMean (fun b => b.Open) (matchingRows [cxBarC, cxBarD] 32400 34500)
          + fieldMean (fun b => b.High) (matchingRows [cxBarC, cxBarD] 32400 34500)
          + fieldMean (fun b => b.Low) (matchingRows [cxBarC, cxBarD] 32400 34500)
          + fieldMean (fun b => b.Close) (matchingRows [cxBarC, cxBarD] 32400 34500)) / 4) := by
  refine ⟨⟨by decide, by decide, by decide, by decide, by decide⟩, ?_⟩
  exact (C10_mean_of_field_means [cxBarC, cxBarD] (("Morning (9:00-9:35 AM)").toList)
    32400 34500 (by decide) (by decide) (by decide) (by decide) (by decide) (by decide)).1

theorem C8_witness :
    process_data_for_intervals [scenarioBar] 1704204000 =
      .table [⟨19724, ("Tuesday").toList, .price (21/2), .noData, .noData⟩]
    ∧ ([⟨19724, ("Tuesday").toList, .price (21/2), .noData, .noData⟩] :
        List DaySummary).Pairwise (fun a b => b.Date < a.Date) := by
  refine ⟨process_scenario_eval, ?_⟩
  exact (C8_sorted_unique [scenarioBar] 1704204000 _ process_scenario_eval).2.2

/-- C9: exporting any table of spec-conformant `DaySummary` rows produces the
fixed header line followed by one newline-terminated line per day, and
re-parsing the produced CSV reproduces the civil dates, weekday names and
interval values exactly (two-decimal numbers and the literal "No Data"). -/
theorem C9_csv_roundtrip (rows : List DaySummary) (h : ∀ s ∈ rows, ValidSummary s) :
    parseCsv (export_to_csv rows) = some (rows.map expectedParsed)
    ∧ csvHeaderLine = ("Date,Day,Morning (9:00-9:35 AM),Mid-Morning (11:00-11:30 AM),Market Close (3:30-4:00 PM)").toList := by
  refine ⟨?_, by decide⟩
  have hnl : ∀ x ∈ (csvHeaderLine :: rows.map (fun s => joinSep ',' (renderRow s))) ++ [[]],
      ('\n') ∉ x := by
    intro x hx
    rcases List.mem_append.mp hx with hx | hx
    · rcases List.mem_cons.mp hx with rfl | hx
      · exact csvHeaderLine_no_newline
      · obtain ⟨s, hs, rfl⟩ := List.mem_map.mp hx
        intro hm
        rcases mem_joinSep _ _ _ hm with h' | ⟨y, hy, hcy⟩
        · exact absurd h' (by decide)
        · unfold renderRow at hy
          simp only [List.mem_cons, List.not_mem_nil, or_false] at hy
          obtain ⟨_, _, hday, _, _, _⟩ := h s hs
          rcases hy with rfl | rfl | rfl | rfl | rfl
          · exact (mem_dateToChars_ok _ _ hcy).2 rfl
          · exact (dayNames_ok _ hday _ hcy) (Or.inr rfl)
          · exact (mem_renderCell _ _ hcy).2 rfl
          · exact (mem_renderCell _ _ hcy).2 rfl
          · exact (mem_renderCell _ _ hcy).2 rfl
    · simp only [List.mem_singleton] at hx
      rw [hx]
      simp
  unfold export_to_csv parseCsv
  rw [flatten_terminated, splitSep_joinSep '\n' _ (by simp) hnl, List.dropLast_concat]
  dsimp only
  rw [if_pos rfl, mapM_parseRow rows h]

theorem C9_witness :
    (∀ s ∈ [csvWitnessRow], ValidSummary s)
    ∧ parseCsv (export_to_csv [csvWitnessRow]) =
        some ([csvWitnessRow].map expectedParsed) := by
  have hv : ValidSummary csvWitnessRow := by
    unfold ValidSummary
    refine ⟨by decide, by decide, by decide, ?_, trivial, trivial⟩
    show ((21/2 : ℚ) * 100).den = 1
    rw [show ((21/2 : ℚ) * 100) = 1050 by norm_num]
    rfl
  have hall : ∀ s ∈ [csvWitnessRow], ValidSummary s := by
    intro s hs
    simp only [List.mem_singleton] at hs
    rw [hs]
    exact hv
  exact ⟨hall, (C9_csv_roundtrip [csvWitnessRow] hall).1⟩

end StockApp
